import Mathlib

/-!
Formal model of the poker-chip-tracker React application.

The model is a shallow embedding of the state-updating functions of the
app's components:

- namespace PotDistribution: src/src/components/PotDistribution.tsx
  (the settlement arithmetic of calculateDistribution);
- namespace BettingModal: src/src/components/BettingModal.tsx
  (minimum-bet validation of handleConfirm);
- namespace GameInterface: src/src/components/GameInterface.tsx
  (the game state machine: fold, call, bet, round advance, pot
  distribution, new hand);
- namespace TurnManaged: src/unnamed/part_003, the turn-managed variant of
  the GameInterface component (adds totalCommitted, the acted-set
  playersWhoHaveActed, currentPlayerIndex, isBettingRoundComplete and
  getNextActivePlayerIndex).

JavaScript numbers holding chip counts are modelled as Int; all chip
arithmetic in the sources is integer arithmetic.  Math.floor(a / n) and
the JS remainder a % n agree with Lean's Int division and remainder for
0 ≤ a, the only regime the pot reaches and the regime of every claim.
React state updates are sequenced exactly as the handlers run them; where
a handler reads a state variable captured by the render closure (for
example advanceToNextPlayer reading players right after setPlayers), the
model reads the pre-update value, as the closure does.
-/

inductive PlayerStatus where
  | active
  | folded
  | allIn
  deriving DecidableEq, Repr

inductive BettingRound where
  | preFlop
  | flop
  | turn
  | river
  deriving DecidableEq, Repr

namespace PotDistribution

/-- Translation of calculateDistribution (PotDistribution.tsx, lines
58-73).  The JS object distribution keyed by winner id is modelled as an
association list in selection order; every caller passes a duplicate-free
winner list (selectedWinners is maintained by toggleWinner, which never
adds an id twice).  amountPerWinner is Math.floor(potAmount / n) and
remainder is potAmount % n. -/
def calculateDistribution (potAmount : Int) (selectedWinners : List String) :
    List (String × Int) :=
  if selectedWinners.length = 0 then []
  else
    let amountPerWinner : Int := potAmount / (selectedWinners.length : Int)
    let remainder : Int := potAmount % (selectedWinners.length : Int)
    selectedWinners.enum.map (fun iw =>
      (iw.2, amountPerWinner + (if (iw.1 : Int) < remainder then 1 else 0)))

/-- The share the settlement arithmetic computes for the winner at
position i of a list of n selected winners. -/
def share (potAmount : Int) (n : ℕ) (i : ℕ) : Int :=
  potAmount / (n : Int) + (if (i : Int) < potAmount % (n : Int) then 1 else 0)

end PotDistribution

namespace BettingModal

/-- Minimum legal bet (BettingModal.tsx, line 27):
minBet = Math.max(currentBet - playerCurrentBet + 1, 1). -/
def minBet (currentBet playerCurrentBet : Int) : Int :=
  max (currentBet - playerCurrentBet + 1) 1

/-- Translation of handleConfirm (BettingModal.tsx, lines 63-67): the
modal invokes onConfirm(betAmount) only when
minBet ≤ betAmount ≤ maxBet (maxBet = playerChips); otherwise nothing
happens.  some means the bet is forwarded, none means it is rejected. -/
def handleConfirm (currentBet playerCurrentBet playerChips betAmount : Int) : Option Int :=
  if minBet currentBet playerCurrentBet ≤ betAmount ∧ betAmount ≤ playerChips then
    some betAmount
  else
    none

end BettingModal

namespace GameInterface

/-- Player record of GameInterface.tsx (lines 6-12). -/
structure Player where
  id : String
  name : String
  chips : Int
  status : PlayerStatus
  currentBet : Int
  deriving DecidableEq, Repr

/-- Game state of the GameInterface component: the players list and the
pot / currentBet / currentHand / currentRound React state variables
(GameInterface.tsx, lines 31-42). -/
structure GameState where
  players : List Player
  pot : Int
  currentBet : Int
  currentHand : ℕ
  currentRound : BettingRound
  deriving DecidableEq, Repr

/-- Translation of confirmFold (GameInterface.tsx, lines 137-145): the
folding player's status becomes folded; chips, bets and pot are
untouched. -/
def confirmFold (s : GameState) (playerId : String) : GameState :=
  { s with
    players := s.players.map (fun player =>
      if player.id == playerId then { player with status := .folded } else player) }

/-- Translation of executeCall (GameInterface.tsx, lines 168-186): the
player pays callAmount from chips into the pot, the player's currentBet
grows by callAmount, and the status becomes all-in when the remaining
chips hit 0. -/
def executeCall (s : GameState) (playerId : String) (callAmount : Int) : GameState :=
  { s with
    players := s.players.map (fun player =>
      if player.id == playerId then
        { player with
          chips := player.chips - callAmount,
          currentBet := player.currentBet + callAmount,
          status := if player.chips - callAmount = 0 then .allIn else player.status }
      else player),
    pot := s.pot + callAmount }

/-- Translation of handleCall (GameInterface.tsx, lines 147-166) composed
with the all-in confirmation (confirmAllIn, lines 188-191), which runs
executeCall with the same amount: callAmount =
Math.min(currentBet - player.currentBet, player.chips). -/
def handleCall (s : GameState) (playerId : String) : GameState :=
  match s.players.find? (fun p => p.id == playerId) with
  | none => s
  | some player => executeCall s playerId (min (s.currentBet - player.currentBet) player.chips)

/-- Translation of handleConfirmBet (GameInterface.tsx, lines 201-229)
with selectedPlayer resolved to the player whose Raise button opened the
modal (handleOpenBettingModal, lines 193-199): actualBet =
Math.min(betAmount, chips) leaves the stack, enters the pot, and raises
the table currentBet when the player's new currentBet exceeds it. -/
def handleConfirmBet (s : GameState) (playerId : String) (betAmount : Int) : GameState :=
  match s.players.find? (fun p => p.id == playerId) with
  | none => s
  | some selectedPlayer =>
    let actualBet := min betAmount selectedPlayer.chips
    let newChips := selectedPlayer.chips - actualBet
    let newCurrentBet := selectedPlayer.currentBet + actualBet
    { s with
      players := s.players.map (fun player =>
        if player.id == selectedPlayer.id then
          { player with
            chips := newChips,
            currentBet := newCurrentBet,
            status := if newChips = 0 then .allIn else player.status }
        else player),
      pot := s.pot + actualBet,
      currentBet := if s.currentBet < newCurrentBet then newCurrentBet else s.currentBet }

/-- The betting flow as the UI wires it: the modal (BettingModal.handleConfirm)
validates the amount against the selected player's chips and the table
bet, and only a validated amount reaches handleConfirmBet
(GameInterface.tsx, lines 592-601). -/
def submitBet (s : GameState) (playerId : String) (betAmount : Int) : GameState :=
  match s.players.find? (fun p => p.id == playerId) with
  | none => s
  | some p =>
    match BettingModal.handleConfirm s.currentBet p.currentBet p.chips betAmount with
    | none => s
    | some amount => handleConfirmBet s playerId amount

/-- Round order (GameInterface.tsx, line 237). -/
def roundOrder : List BettingRound := [.preFlop, .flop, .turn, .river]

/-- Translation of confirmNextRound (GameInterface.tsx, lines 256-270):
advance the betting round, reset every player's currentBet and the table
currentBet, keep the pot. -/
def confirmNextRound (s : GameState) : GameState :=
  let currentIndex := roundOrder.indexOf s.currentRound
  if currentIndex < roundOrder.length - 1 then
    { s with
      currentRound := (roundOrder[currentIndex + 1]?).getD s.currentRound,
      players := s.players.map (fun player => { player with currentBet := 0 }),
      currentBet := 0 }
  else
    s

/-- Translation of handlePotDistribution (GameInterface.tsx, lines
289-308, state update only; the trailing auto handleNewHand is a separate
step): each player receives distribution[player.id] || 0, the status
becomes active exactly when the resulting chips are positive, currentBet
resets, and the pot and table bet go to 0. -/
def handlePotDistribution (s : GameState) (distribution : List (String × Int)) : GameState :=
  { s with
    players := s.players.map (fun player =>
      { player with
        chips := player.chips + ((distribution.lookup player.id).getD 0),
        status := if 0 < player.chips + ((distribution.lookup player.id).getD 0)
          then .active else .folded,
        currentBet := 0 }),
    pot := 0,
    currentBet := 0 }

/-- Translation of handleNewHand (GameInterface.tsx, lines 314-324). -/
def handleNewHand (s : GameState) : GameState :=
  { s with
    players := s.players.map (fun player =>
      { player with
        status := if 0 < player.chips then .active else .folded,
        currentBet := 0 }),
    pot := 0,
    currentBet := 0,
    currentHand := s.currentHand + 1,
    currentRound := .preFlop }

/-- Result of the end-of-hand flow: either the user is routed into the
PotDistribution modal with the game state untouched, or a fresh hand
starts. -/
inductive EndHandResult where
  | toDistribution (s : GameState)
  | newHand (s : GameState)
  deriving DecidableEq, Repr

/-- Translation of handleEndHand (GameInterface.tsx, lines 272-287)
composed with the two possible answers to the "Pot Not Distributed"
dialog: when pot > 0 the dialog opens and both buttons
(confirmNewHand, lines 284-287, and the onCancel handler, lines 653-656)
open the PotDistribution modal, leaving players, pot, currentBet,
currentHand and currentRound untouched; only when the pot is empty does
handleNewHand run. -/
def handleEndHand (s : GameState) : EndHandResult :=
  if 0 < s.pot then .toDistribution s else .newHand (handleNewHand s)

/-- Sum of all players' chips plus the pot: totalChipsInPlay
(GameInterface.tsx, line 371). -/
def totalChipsInPlay (s : GameState) : Int :=
  (s.players.map Player.chips).sum + s.pot

/-- Initial game state (GameInterface.tsx, lines 31-42): every player
starts active with startingChips and no bet; empty pot, table bet 0,
hand 1, pre-flop. -/
def initState (initialPlayers : List (String × String)) (startingChips : Int) : GameState :=
  { players := initialPlayers.map (fun p =>
      { id := p.1, name := p.2, chips := startingChips, status := .active, currentBet := 0 }),
    pot := 0,
    currentBet := 0,
    currentHand := 1,
    currentRound := .preFlop }

/-- One in-hand action of the tracker, as the UI can issue it: a fold, a
call/check, a bet validated by the betting modal, a round advance, or a
pot distribution whose map comes from the settlement arithmetic of
PotDistribution.calculateDistribution over a non-empty, duplicate-free
selection of players. -/
inductive Step : GameState → GameState → Prop where
  | fold (s : GameState) (playerId : String) : Step s (confirmFold s playerId)
  | call (s : GameState) (playerId : String) : Step s (handleCall s playerId)
  | bet (s : GameState) (playerId : String) (betAmount : Int) :
      Step s (submitBet s playerId betAmount)
  | advanceRound (s : GameState) : Step s (confirmNextRound s)
  | distributePot (s : GameState) (winners : List String)
      (hne : winners ≠ []) (hnd : winners.Nodup)
      (hmem : ∀ w ∈ winners, w ∈ s.players.map Player.id) :
      Step s (handlePotDistribution s (PotDistribution.calculateDistribution s.pot winners))

/-- State invariant maintained by every Step: non-negative pot,
duplicate-free player ids, non-negative stacks, and no player bet above
the table currentBet. -/
def Inv (s : GameState) : Prop :=
  0 ≤ s.pot ∧ (s.players.map Player.id).Nodup ∧
    ∀ p ∈ s.players, 0 ≤ p.chips ∧ p.currentBet ≤ s.currentBet

end GameInterface

namespace TurnManaged

/-- Player record of the turn-managed GameInterface (src/unnamed/part_003,
lines 6-14).  totalCommitted is initialised to 0 everywhere, so the
optional field is modelled as always present ((player.totalCommitted || 0)
reads 0 exactly when the model holds 0); the cosmetic position badge is
not modelled, no game logic reads it. -/
structure Player where
  id : String
  name : String
  chips : Int
  status : PlayerStatus
  currentBet : Int
  totalCommitted : Int
  deriving DecidableEq, Repr

/-- Game state of the turn-managed GameInterface (src/unnamed/part_003,
lines 33-50): the players list, pot, currentBet, currentHand,
currentRound, plus the turn-management state currentPlayerIndex and the
acted-set playersWhoHaveActed.  The JS Set of ids is modelled as its list
of elements in insertion order.  The dealer-position state (dealerIndex,
position badges) is cosmetic and not modelled. -/
structure GameState where
  players : List Player
  pot : Int
  currentBet : Int
  currentHand : ℕ
  currentRound : BettingRound
  currentPlayerIndex : ℕ
  playersWhoHaveActed : List String
  deriving DecidableEq, Repr

/-- JS Set.add on the acted-set: appends the id unless already present. -/
def setAdd (acted : List String) (x : String) : List String :=
  if x ∈ acted then acted else acted ++ [x]

/-- Loop body of getNextActivePlayerIndex (src/unnamed/part_003, lines
76-86): while (attempts < players.length) check players[nextIndex] for an
active player, else step to (nextIndex + 1) % players.length.  fuel is
the remaining number of attempts; when it runs out the function falls
back to startIndex (line 88). -/
def nextActiveGo (players : List Player) (startIndex : ℕ) : ℕ → ℕ → ℕ
  | _, 0 => startIndex
  | nextIndex, fuel + 1 =>
    match players[nextIndex]? with
    | some player =>
      if player.status == .active then nextIndex
      else nextActiveGo players startIndex ((nextIndex + 1) % players.length) fuel
    | none => nextActiveGo players startIndex ((nextIndex + 1) % players.length) fuel

/-- Translation of getNextActivePlayerIndex (src/unnamed/part_003, lines
72-89): if no player is active return 0 (line 74); otherwise scan
circularly from startIndex + 1 with players.length attempts. -/
def getNextActivePlayerIndex (players : List Player) (startIndex : ℕ) : ℕ :=
  let activePlayers := players.filter (fun p => p.status == .active)
  if activePlayers.length = 0 then 0
  else nextActiveGo players startIndex ((startIndex + 1) % players.length) players.length

/-- Modelled from the spec's words, for comparison with
getNextActivePlayerIndex (claim C6): scan the player list circularly
forward starting at fromIndex + 1 and return the index of the first
player with status active, if any. -/
def nextActiveSpec (players : List Player) (fromIndex : ℕ) : Option ℕ :=
  ((List.range players.length).map (fun m => (fromIndex + 1 + m) % players.length)).find?
    (fun j => match players[j]? with
      | some p => p.status == .active
      | none => false)

/-- Translation of confirmFold (src/unnamed/part_003, lines 275-287):
fold the player, add the id to the acted-set, and advance the turn.
advanceToNextPlayer runs in the same render as setPlayers, so
getNextActivePlayerIndex scans the pre-fold players list captured by the
closure. -/
def confirmFold (s : GameState) (playerId : String) : GameState :=
  { s with
    players := s.players.map (fun player =>
      if player.id == playerId then { player with status := .folded } else player),
    playersWhoHaveActed := setAdd s.playersWhoHaveActed playerId,
    currentPlayerIndex := getNextActivePlayerIndex s.players s.currentPlayerIndex }

/-- Translation of executeCall (src/unnamed/part_003, lines 310-333):
transfer callAmount from the player's chips into the pot, grow
currentBet and totalCommitted by it, go all-in at 0 chips, mark the
player as acted, advance the turn (on the pre-call players list, which
the closure captured). -/
def executeCall (s : GameState) (playerId : String) (callAmount : Int) : GameState :=
  { s with
    players := s.players.map (fun player =>
      if player.id == playerId then
        { player with
          chips := player.chips - callAmount,
          currentBet := player.currentBet + callAmount,
          totalCommitted := player.totalCommitted + callAmount,
          status := if player.chips - callAmount = 0 then .allIn else player.status }
      else player),
    pot := s.pot + callAmount,
    playersWhoHaveActed := setAdd s.playersWhoHaveActed playerId,
    currentPlayerIndex := getNextActivePlayerIndex s.players s.currentPlayerIndex }

/-- Translation of handleCall (src/unnamed/part_003, lines 289-308)
composed with the all-in confirmation (confirmAllIn, lines 335-338),
which runs executeCall with the same amount: callAmount =
Math.min(currentBet - player.currentBet, player.chips). -/
def handleCall (s : GameState) (playerId : String) : GameState :=
  match s.players.find? (fun p => p.id == playerId) with
  | none => s
  | some player => executeCall s playerId (min (s.currentBet - player.currentBet) player.chips)

/-- Translation of handleConfirmBet (src/unnamed/part_003, lines 348-381)
with selectedPlayer resolved to the player whose Raise button opened the
modal: actualBet = Math.min(betAmount, chips); the table currentBet rises
to the player's new currentBet when exceeded; the raiser is added to the
acted-set, and nobody is removed from it. -/
def handleConfirmBet (s : GameState) (playerId : String) (betAmount : Int) : GameState :=
  match s.players.find? (fun p => p.id == playerId) with
  | none => s
  | some selectedPlayer =>
    let actualBet := min betAmount selectedPlayer.chips
    let newChips := selectedPlayer.chips - actualBet
    let newCurrentBet := selectedPlayer.currentBet + actualBet
    { s with
      players := s.players.map (fun player =>
        if player.id == selectedPlayer.id then
          { player with
            chips := newChips,
            currentBet := newCurrentBet,
            totalCommitted := player.totalCommitted + actualBet,
            status := if newChips = 0 then .allIn else player.status }
        else player),
      pot := s.pot + actualBet,
      currentBet := if s.currentBet < newCurrentBet then newCurrentBet else s.currentBet,
      playersWhoHaveActed := setAdd s.playersWhoHaveActed playerId,
      currentPlayerIndex := getNextActivePlayerIndex s.players s.currentPlayerIndex }

/-- Translation of isBettingRoundComplete (src/unnamed/part_003, lines
542-578). -/
def isBettingRoundComplete (s : GameState) : Bool :=
  let activePlayers := s.players.filter (fun p => p.status == .active)
  let allInPlayers := s.players.filter (fun p => p.status == .allIn)
  if activePlayers.length ≤ 1 then true
  else if !(activePlayers.all (fun player => s.playersWhoHaveActed.contains player.id)) then
    false
  else if s.currentBet = 0 then true
  else
    (activePlayers.all (fun player => player.currentBet == s.currentBet)) &&
      (allInPlayers.all (fun player =>
        player.currentBet == s.currentBet || player.chips == 0))

/-- The round-completion criterion as claim C4 words it: (a) zero or one
player has status active, or (b) every active player is in the acted-set
and either the table currentBet is 0, or every active player's currentBet
equals the table currentBet and every all-in player either has currentBet
equal to the table currentBet or chips equal to 0. -/
def RoundCompleteSpec (s : GameState) : Prop :=
  (s.players.filter (fun p => p.status == .active)).length ≤ 1 ∨
    ((∀ p ∈ s.players, p.status = .active → p.id ∈ s.playersWhoHaveActed) ∧
      (s.currentBet = 0 ∨
        ((∀ p ∈ s.players, p.status = .active → p.currentBet = s.currentBet) ∧
          (∀ p ∈ s.players, p.status = .allIn →
            p.currentBet = s.currentBet ∨ p.chips = 0))))

/-- Translation of handlePotDistribution (src/unnamed/part_003, lines
449-469, state update only; the trailing auto handleNewHand is a separate
step): each player receives distribution[player.id] || 0, the status
becomes active exactly when the resulting chips are positive — whatever
the previous status was — and currentBet and totalCommitted reset to 0;
the pot and table bet go to 0. -/
def handlePotDistribution (s : GameState) (distribution : List (String × Int)) : GameState :=
  { s with
    players := s.players.map (fun player =>
      { player with
        chips := player.chips + ((distribution.lookup player.id).getD 0),
        status := if 0 < player.chips + ((distribution.lookup player.id).getD 0)
          then .active else .folded,
        currentBet := 0,
        totalCommitted := 0 }),
    pot := 0,
    currentBet := 0 }

/-- A two-player roster in which everyone has folded (used to probe the
no-active-player fallback of getNextActivePlayerIndex). -/
def rosterAllFolded : List Player :=
  [{ id := "a", name := "A", chips := 50, status := .folded, currentBet := 0, totalCommitted := 0 },
   { id := "b", name := "B", chips := 50, status := .folded, currentBet := 0, totalCommitted := 0 }]

/-- A mid-hand state: both players active with 90 chips behind, table bet
10 already called by both, player a already marked as acted. -/
def raiseState : GameState :=
  { players :=
      [{ id := "a", name := "A", chips := 90, status := .active, currentBet := 10, totalCommitted := 10 },
       { id := "b", name := "B", chips := 90, status := .active, currentBet := 10, totalCommitted := 10 }],
    pot := 20, currentBet := 10, currentHand := 1, currentRound := .preFlop,
    currentPlayerIndex := 1, playersWhoHaveActed := ["a"] }

/-- A state in which both active players have checked: table bet 0, both
in the acted-set, so the betting round is complete. -/
def checkedState : GameState :=
  { players :=
      [{ id := "a", name := "A", chips := 100, status := .active, currentBet := 0, totalCommitted := 0 },
       { id := "b", name := "B", chips := 100, status := .active, currentBet := 0, totalCommitted := 0 }],
    pot := 0, currentBet := 0, currentHand := 1, currentRound := .flop,
    currentPlayerIndex := 0, playersWhoHaveActed := ["a", "b"] }

end TurnManaged

namespace PotDistribution

theorem calculateDistribution_eq (potAmount : Int) (ws : List String) (h : ws ≠ []) :
    calculateDistribution potAmount ws =
      ws.enum.map (fun iw => (iw.2, share potAmount ws.length iw.1)) := by
  unfold calculateDistribution share
  rw [if_neg (by simpa using h)]

theorem enum_map_pair_fst (l : List String) (f : ℕ → Int) :
    ((l.enum.map (fun iw => (iw.2, f iw.1))).map Prod.fst) = l := by
  rw [List.map_map]
  have h : (Prod.fst ∘ fun iw : ℕ × String => (iw.2, f iw.1)) = Prod.snd := rfl
  rw [h, List.enum_map_snd]

theorem enum_map_pair_snd (l : List String) (f : ℕ → Int) :
    ((l.enum.map (fun iw => (iw.2, f iw.1))).map Prod.snd) = (List.range l.length).map f := by
  rw [List.map_map, List.enum_eq_zip_range]
  have h := List.map_fst_zip (List.range l.length) l (by simp)
  calc ((List.range l.length).zip l).map (Prod.snd ∘ fun iw => (iw.2, f iw.1))
      = ((List.range l.length).zip l).map (f ∘ Prod.fst) := rfl
    _ = (((List.range l.length).zip l).map Prod.fst).map f := by rw [List.map_map]
    _ = (List.range l.length).map f := by rw [h]

theorem sum_range_share (potAmount : Int) (m : ℕ) (hr : 0 ≤ potAmount % (m : Int)) (n : ℕ) :
    ((List.range n).map (share potAmount m)).sum
      = n * (potAmount / (m : Int)) + min (potAmount % (m : Int)) n := by
  induction n with
  | zero => simp; omega
  | succ n ih =>
    rw [List.range_succ, List.map_append, List.sum_append, ih]
    simp only [List.map_cons, List.map_nil, List.sum_cons, List.sum_nil, share]
    push_cast
    have hmul : ((n : Int) + 1) * (potAmount / (m : Int))
        = (n : Int) * (potAmount / (m : Int)) + potAmount / (m : Int) := by ring
    rw [hmul]
    generalize (n : Int) * (potAmount / (m : Int)) = A
    generalize potAmount / (m : Int) = q
    split_ifs with h <;> omega

theorem calculateDistribution_keys (potAmount : Int) (ws : List String) :
    (calculateDistribution potAmount ws).map Prod.fst = ws := by
  rcases eq_or_ne ws [] with rfl | h
  · simp [calculateDistribution]
  · rw [calculateDistribution_eq potAmount ws h]
    simpa using enum_map_pair_fst ws (share potAmount ws.length)

theorem calculateDistribution_values (potAmount : Int) (ws : List String) (h : ws ≠ []) :
    (calculateDistribution potAmount ws).map Prod.snd =
      (List.range ws.length).map (share potAmount ws.length) := by
  rw [calculateDistribution_eq potAmount ws h]
  simpa using enum_map_pair_snd ws (share potAmount ws.length)

theorem calculateDistribution_sum (potAmount : Int) (ws : List String)
    (h0 : 0 ≤ potAmount) (hne : ws ≠ []) :
    ((calculateDistribution potAmount ws).map Prod.snd).sum = potAmount := by
  have hn : 0 < (ws.length : Int) := by
    have := List.length_pos.mpr hne
    exact_mod_cast this
  rw [calculateDistribution_values potAmount ws hne,
    sum_range_share potAmount ws.length (Int.emod_nonneg potAmount (by omega)) ws.length]
  have hlt : potAmount % (ws.length : Int) < (ws.length : Int) :=
    Int.emod_lt_of_pos potAmount hn
  have := Int.ediv_add_emod potAmount (ws.length : Int)
  have hmin : min (potAmount % (ws.length : Int)) ((ws.length : ℕ) : Int)
      = potAmount % (ws.length : Int) := by omega
  rw [hmin]
  omega

theorem share_nonneg (potAmount : Int) (n : ℕ) (i : ℕ)
    (h0 : 0 ≤ potAmount) (hn : 0 < n) : 0 ≤ share potAmount n i := by
  unfold share
  have hq : 0 ≤ potAmount / (n : Int) :=
    Int.ediv_nonneg h0 (by exact_mod_cast Nat.le_of_lt hn)
  split_ifs <;> omega

theorem calculateDistribution_values_nonneg (potAmount : Int) (ws : List String)
    (h0 : 0 ≤ potAmount) :
    ∀ kv ∈ calculateDistribution potAmount ws, 0 ≤ kv.2 := by
  intro kv hkv
  rcases eq_or_ne ws [] with rfl | h
  · simp [calculateDistribution] at hkv
  · rw [calculateDistribution_eq potAmount ws h] at hkv
    obtain ⟨iw, hiw, rfl⟩ := List.mem_map.mp hkv
    exact share_nonneg potAmount ws.length iw.1 h0 (List.length_pos.mpr h)

theorem lookup_enum_map (f : ℕ → Int) (ws : List String) :
    ∀ (k i : ℕ) (w : String), ws.Nodup → ws[i]? = some w →
      ((ws.enumFrom k).map (fun iw => (iw.2, f iw.1))).lookup w = some (f (k + i)) := by
  induction ws with
  | nil => intro k i w _ hw; simp at hw
  | cons a t ih =>
    intro k i w hnd hw
    rcases List.nodup_cons.mp hnd with ⟨ha, hndt⟩
    match i with
    | 0 =>
      simp only [List.getElem?_cons_zero, Option.some.injEq] at hw
      subst hw
      simp [List.enumFrom, List.lookup]
    | Nat.succ j =>
      simp only [List.getElem?_cons_succ] at hw
      have hwt : w ∈ t := List.getElem?_mem hw
      have hne : (w == a) = false := by
        apply beq_false_of_ne
        intro heq
        exact ha (heq ▸ hwt)
      simp only [List.enumFrom, List.map_cons, List.lookup, hne]
      have harg : k + Nat.succ j = k + 1 + j := by omega
      rw [harg]
      exact ih (k + 1) j w hndt hw

/-- Claim C2.  Split-pot exactness: for potAmount ≥ 0 and a non-empty,
duplicate-free winner list of size n, calculateDistribution gives the
winner at position i the share floor(potAmount / n) plus one extra chip
exactly when i < potAmount mod n (the first remainder winners in
selection order); the distributed values sum to exactly potAmount, and
any two shares differ by at most 1. -/
theorem split_pot_exactness (potAmount : Int) (ws : List String)
    (h0 : 0 ≤ potAmount) (hne : ws ≠ []) (hnd : ws.Nodup) :
    (∀ (i : ℕ) (w : String), ws[i]? = some w →
      (calculateDistribution potAmount ws).lookup w = some (share potAmount ws.length i)) ∧
    ((calculateDistribution potAmount ws).map Prod.snd).sum = potAmount ∧
    (∀ x ∈ (calculateDistribution potAmount ws).map Prod.snd,
      ∀ y ∈ (calculateDistribution potAmount ws).map Prod.snd, x - y ≤ 1) := by
  refine ⟨?_, calculateDistribution_sum potAmount ws h0 hne, ?_⟩
  · intro i w hw
    rw [calculateDistribution_eq potAmount ws hne]
    have := lookup_enum_map (share potAmount ws.length) ws 0 i w hnd hw
    simpa using this
  · intro x hx y hy
    rw [calculateDistribution_values potAmount ws hne] at hx hy
    obtain ⟨i, _, rfl⟩ := List.mem_map.mp hx
    obtain ⟨j, _, rfl⟩ := List.mem_map.mp hy
    unfold share
    split_ifs <;> omega

/-- Witness for C2 at potAmount = 7 and winners a, b, c: the shares are
3, 2, 2, summing to 7. -/
theorem split_pot_exactness_witness :
    ((calculateDistribution 7 ["a", "b", "c"]).map Prod.snd).sum = 7 :=
  (split_pot_exactness 7 ["a", "b", "c"] (by decide) (by decide) (by decide)).2.1

theorem lookup_eq_none_of_not_mem_keys (d : List (String × Int)) (x : String)
    (h : ∀ kv ∈ d, kv.1 ≠ x) : d.lookup x = none := by
  induction d with
  | nil => rfl
  | cons kv t ih =>
    have hx : (x == kv.1) = false :=
      beq_false_of_ne (fun he => h kv (List.mem_cons_self kv t) he.symm)
    obtain ⟨k, v⟩ := kv
    simp only [List.lookup, hx]
    exact ih (fun kv hkv => h kv (List.mem_cons_of_mem _ hkv))

theorem sum_map_str_if_not_mem (l : List String) (k : String) (v : Int) (g : String → Int)
    (hk : k ∉ l) :
    (l.map (fun x => if x == k then v else g x)).sum = (l.map g).sum := by
  induction l with
  | nil => rfl
  | cons a t ih =>
    have ha : (a == k) = false := beq_false_of_ne (fun he => hk (he ▸ List.mem_cons_self a t))
    simp only [List.map_cons, List.sum_cons, ha, Bool.false_eq_true, if_false]
    rw [ih (fun he => hk (List.mem_cons_of_mem a he))]

theorem sum_map_str_if (l : List String) (k : String) (v : Int) (g : String → Int)
    (hnd : l.Nodup) (hk : k ∈ l) :
    (l.map (fun x => if x == k then v else g x)).sum = (l.map g).sum + (v - g k) := by
  induction l with
  | nil => cases hk
  | cons a t ih =>
    obtain ⟨ha, hndt⟩ := List.nodup_cons.mp hnd
    rcases List.mem_cons.mp hk with rfl | hkt
    · simp only [List.map_cons, List.sum_cons]
      rw [if_pos (beq_self_eq_true k), sum_map_str_if_not_mem t k v g ha]
      ring
    · have hne : (a == k) ≠ true := by
        simp only [ne_eq, beq_iff_eq]
        exact fun he => ha (he ▸ hkt)
      simp only [List.map_cons, List.sum_cons]
      rw [if_neg hne, ih hndt hkt]
      ring

theorem sum_map_lookup (d : List (String × Int)) :
    ∀ l : List String, l.Nodup → (d.map Prod.fst).Nodup →
      (∀ k ∈ d.map Prod.fst, k ∈ l) →
      (l.map (fun x => (d.lookup x).getD 0)).sum = (d.map Prod.snd).sum := by
  induction d with
  | nil =>
    intro l _ _ _
    simp [List.lookup]
  | cons kv t ih =>
    intro l hl hkeys hsub
    obtain ⟨k, v⟩ := kv
    rw [List.map_cons] at hkeys
    obtain ⟨hknot, hkeyst⟩ := List.nodup_cons.mp hkeys
    have hmap : l.map (fun x => (((k, v) :: t).lookup x).getD 0)
        = l.map (fun x => if x == k then v else (t.lookup x).getD 0) := by
      apply List.map_congr_left
      intro x _
      by_cases hx : x = k
      · subst hx; simp [List.lookup]
      · have : (x == k) = false := beq_false_of_ne hx
        simp [List.lookup, this]
    have hkl : k ∈ l := hsub k (by simp)
    rw [hmap, sum_map_str_if l k v (fun x => (t.lookup x).getD 0) hl hkl]
    have hnone : t.lookup k = none := by
      apply lookup_eq_none_of_not_mem_keys
      intro kv hkv he
      apply hknot
      show k ∈ List.map Prod.fst t
      rw [← he]
      exact List.mem_map_of_mem Prod.fst hkv
    rw [ih l hl hkeyst (fun x hx => hsub x (by simp [hx]))]
    simp [hnone]
    ring

theorem lookup_getD_nonneg (d : List (String × Int))
    (hvals : ∀ kv ∈ d, 0 ≤ kv.2) (x : String) :
    0 ≤ (d.lookup x).getD 0 := by
  induction d with
  | nil => simp [List.lookup]
  | cons kv t ih =>
    obtain ⟨k, w⟩ := kv
    by_cases hx : (x == k) = true
    · simp only [List.lookup, hx]
      simpa using hvals (k, w) (List.mem_cons_self _ _)
    · have hbx : (x == k) = false := by
        revert hx
        cases x == k <;> simp
      simp only [List.lookup, hbx]
      exact ih (fun kv hkv => hvals kv (List.mem_cons_of_mem _ hkv))

end PotDistribution

namespace GameInterface

theorem map_field_congr {β : Type} (l : List Player) (f : Player → Player) (g : Player → β)
    (hf : ∀ p, g (f p) = g p) : (l.map f).map g = l.map g := by
  rw [List.map_map]
  exact List.map_congr_left (fun p _ => hf p)

theorem eq_of_mem_of_id_eq (l : List Player) (hnd : (l.map Player.id).Nodup) :
    ∀ p ∈ l, ∀ q ∈ l, p.id = q.id → p = q := by
  induction l with
  | nil => simp
  | cons a t ih =>
    simp only [List.map_cons, List.nodup_cons] at hnd
    obtain ⟨ha, hnd⟩ := hnd
    intro p hp q hq hpq
    rcases List.mem_cons.mp hp with hpa | hpt
    · rcases List.mem_cons.mp hq with hqa | hqt
      · rw [hpa, hqa]
      · exfalso
        apply ha
        rw [← hpa, hpq]
        exact List.mem_map_of_mem Player.id hqt
    · rcases List.mem_cons.mp hq with hqa | hqt
      · exfalso
        apply ha
        rw [← hqa, ← hpq]
        exact List.mem_map_of_mem Player.id hpt
      · exact ih hnd p hpt q hqt hpq

theorem sum_map_if_not_mem (l : List Player) (k : String) (v g : Player → Int)
    (h : ∀ p ∈ l, p.id ≠ k) :
    (l.map (fun p => if p.id == k then v p else g p)).sum = (l.map g).sum := by
  induction l with
  | nil => rfl
  | cons a t ih =>
    have ha : (a.id == k) ≠ true := by
      simp only [ne_eq, beq_iff_eq]
      exact h a (List.mem_cons_self a t)
    simp only [List.map_cons, List.sum_cons]
    rw [if_neg ha, ih (fun p hp => h p (List.mem_cons_of_mem a hp))]

theorem sum_map_if (l : List Player) (k : String) (v g : Player → Int)
    (hnd : (l.map Player.id).Nodup) (pk : Player) (hp : pk ∈ l) (hid : pk.id = k) :
    (l.map (fun p => if p.id == k then v p else g p)).sum
      = (l.map g).sum + (v pk - g pk) := by
  induction l with
  | nil => cases hp
  | cons a t ih =>
    simp only [List.map_cons, List.nodup_cons] at hnd
    obtain ⟨ha, hnd⟩ := hnd
    rcases List.mem_cons.mp hp with rfl | hpt
    · simp only [List.map_cons, List.sum_cons]
      rw [if_pos (by rw [hid]; exact beq_self_eq_true k),
        sum_map_if_not_mem t k v g ?_]
      · ring
      · intro p hpt hpk
        apply ha
        rw [hid, ← hpk]
        exact List.mem_map_of_mem Player.id hpt
    · have hne : (a.id == k) ≠ true := by
        simp only [ne_eq, beq_iff_eq]
        intro he
        apply ha
        rw [he, ← hid]
        exact List.mem_map_of_mem Player.id hpt
      simp only [List.map_cons, List.sum_cons]
      rw [if_neg hne, ih hnd hpt]
      ring

theorem find?_id_spec {l : List Player} {pid : String} {p : Player}
    (hfind : l.find? (fun q => q.id == pid) = some p) : p ∈ l ∧ p.id = pid := by
  refine ⟨List.mem_of_find?_eq_some hfind, ?_⟩
  have := List.find?_some hfind
  simpa using this

theorem confirmFold_total (s : GameState) (playerId : String) :
    totalChipsInPlay (confirmFold s playerId) = totalChipsInPlay s := by
  unfold totalChipsInPlay confirmFold
  simp only
  rw [map_field_congr s.players _ Player.chips ?_]
  intro p
  by_cases h : p.id = playerId <;> simp [h]

theorem confirmFold_inv (s : GameState) (playerId : String) (h : Inv s) :
    Inv (confirmFold s playerId) := by
  obtain ⟨hpot, hnd, hpl⟩ := h
  refine ⟨hpot, ?_, ?_⟩
  · rw [confirmFold, map_field_congr s.players _ Player.id ?_]
    · exact hnd
    · intro p; by_cases hb : p.id = playerId <;> simp [hb]
  · intro q hq
    simp only [confirmFold, List.mem_map] at hq
    obtain ⟨p, hp, rfl⟩ := hq
    by_cases hb : p.id = playerId <;> simpa [hb, confirmFold] using hpl p hp

theorem executeCall_players_chips (s : GameState) (playerId : String) (c : Int)
    (hnd : (s.players.map Player.id).Nodup) (p : Player)
    (hmem : p ∈ s.players) (hpid : p.id = playerId) :
    ((executeCall s playerId c).players.map Player.chips).sum
      = (s.players.map Player.chips).sum - c := by
  have hmap : (executeCall s playerId c).players.map Player.chips
      = s.players.map (fun q => if q.id == playerId then q.chips - c else q.chips) := by
    unfold executeCall
    dsimp only
    rw [List.map_map]
    apply List.map_congr_left
    intro q _
    by_cases hb : q.id = playerId <;> simp [hb]
  rw [hmap]
  have h := sum_map_if s.players playerId (fun q => q.chips - c) Player.chips hnd p hmem hpid
  dsimp only at h
  omega

theorem handleCall_total (s : GameState) (playerId : String)
    (hnd : (s.players.map Player.id).Nodup) :
    totalChipsInPlay (handleCall s playerId) = totalChipsInPlay s := by
  unfold handleCall
  cases hfind : s.players.find? (fun q => q.id == playerId) with
  | none => rfl
  | some p =>
    obtain ⟨hmem, hpid⟩ := find?_id_spec hfind
    unfold totalChipsInPlay
    rw [executeCall_players_chips s playerId _ hnd p hmem hpid]
    have hpot : (executeCall s playerId
        (min (s.currentBet - p.currentBet) p.chips)).pot
        = s.pot + min (s.currentBet - p.currentBet) p.chips := rfl
    rw [hpot]
    ring

theorem handleCall_inv (s : GameState) (playerId : String) (h : Inv s) :
    Inv (handleCall s playerId) := by
  obtain ⟨hpot, hnd, hpl⟩ := h
  unfold handleCall
  cases hfind : s.players.find? (fun q => q.id == playerId) with
  | none => exact ⟨hpot, hnd, hpl⟩
  | some p =>
    obtain ⟨hmem, hpid⟩ := find?_id_spec hfind
    have hb := hpl p hmem
    set c := min (s.currentBet - p.currentBet) p.chips with hc
    have hc0 : 0 ≤ c := by omega
    have hcle : c ≤ p.chips := by omega
    have hcbet : c ≤ s.currentBet - p.currentBet := by omega
    refine ⟨by simp only [executeCall]; omega, ?_, ?_⟩
    · have : (executeCall s playerId c).players.map Player.id = s.players.map Player.id := by
        unfold executeCall
        dsimp only
        exact map_field_congr s.players _ Player.id
          (fun q => by by_cases hbq : q.id = playerId <;> simp [hbq])
      rw [this]
      exact hnd
    · intro q' hq'
      have hcb : (executeCall s playerId c).currentBet = s.currentBet := rfl
      rw [hcb]
      simp only [executeCall, List.mem_map] at hq'
      obtain ⟨q, hq, rfl⟩ := hq'
      by_cases hbq : q.id == playerId
      · have hqp : q = p := eq_of_mem_of_id_eq s.players hnd q hq p hmem
          (by rw [hpid]; exact beq_iff_eq.mp hbq)
        subst hqp
        have hbq' := hpl q hq
        simp only [hbq, if_true]
        constructor
        · dsimp only
          omega
        · dsimp only
          omega
      · simp only [hbq, Bool.false_eq_true, if_false]
        exact hpl q hq

theorem handleConfirmBet_total (s : GameState) (playerId : String) (betAmount : Int)
    (hnd : (s.players.map Player.id).Nodup) :
    totalChipsInPlay (handleConfirmBet s playerId betAmount) = totalChipsInPlay s := by
  unfold handleConfirmBet
  cases hfind : s.players.find? (fun q => q.id == playerId) with
  | none => rfl
  | some p =>
    obtain ⟨hmem, _⟩ := find?_id_spec hfind
    unfold totalChipsInPlay
    dsimp only
    have hmap : (s.players.map (fun player =>
        if player.id == p.id then
          { player with
            chips := p.chips - min betAmount p.chips,
            currentBet := p.currentBet + min betAmount p.chips,
            status := if p.chips - min betAmount p.chips = 0 then PlayerStatus.allIn
              else player.status }
        else player)).map Player.chips
        = s.players.map (fun q =>
            if q.id == p.id then p.chips - min betAmount p.chips else q.chips) := by
      rw [List.map_map]
      apply List.map_congr_left
      intro q _
      by_cases hb : q.id = p.id <;> simp [hb]
    rw [hmap]
    have h := sum_map_if s.players p.id (fun _ => p.chips - min betAmount p.chips)
      Player.chips hnd p hmem rfl
    dsimp only at h
    omega

theorem handleConfirmBet_inv_of_valid (s : GameState) (playerId : String) (betAmount : Int)
    (h : Inv s) (p : Player)
    (hfind : s.players.find? (fun q => q.id == playerId) = some p)
    (hlo : BettingModal.minBet s.currentBet p.currentBet ≤ betAmount)
    (hhi : betAmount ≤ p.chips) :
    Inv (handleConfirmBet s playerId betAmount) := by
  obtain ⟨hpot, hnd, hpl⟩ := h
  obtain ⟨hmem, hpid⟩ := find?_id_spec hfind
  have hminb : 1 ≤ betAmount := by
    have : 1 ≤ BettingModal.minBet s.currentBet p.currentBet := le_max_right _ _
    omega
  have hab : min betAmount p.chips = betAmount := min_eq_left hhi
  unfold handleConfirmBet
  rw [hfind]
  dsimp only
  rw [hab]
  refine ⟨by dsimp only; omega, ?_, ?_⟩
  · have : (s.players.map (fun player =>
        if player.id == p.id then
          { player with
            chips := p.chips - betAmount,
            currentBet := p.currentBet + betAmount,
            status := if p.chips - betAmount = 0 then PlayerStatus.allIn
              else player.status }
        else player)).map Player.id = s.players.map Player.id :=
      map_field_congr s.players _ Player.id
        (fun q => by by_cases hbq : q.id = p.id <;> simp [hbq])
    dsimp only
    rw [this]
    exact hnd
  · intro q' hq'
    simp only [List.mem_map] at hq'
    obtain ⟨q, hq, rfl⟩ := hq'
    have hqb := hpl q hq
    have hpb := hpl p hmem
    by_cases hbq : q.id == p.id
    · simp only [hbq, if_true]
      constructor
      · dsimp only; omega
      · dsimp only
        split_ifs <;> omega
    · simp only [hbq, Bool.false_eq_true, if_false]
      refine ⟨hqb.1, ?_⟩
      dsimp only
      split_ifs <;> omega

theorem submitBet_total (s : GameState) (playerId : String) (betAmount : Int)
    (hnd : (s.players.map Player.id).Nodup) :
    totalChipsInPlay (submitBet s playerId betAmount) = totalChipsInPlay s := by
  unfold submitBet BettingModal.handleConfirm
  cases hfind : s.players.find? (fun q => q.id == playerId) with
  | none => rfl
  | some p =>
    dsimp only
    by_cases hv : BettingModal.minBet s.currentBet p.currentBet ≤ betAmount
        ∧ betAmount ≤ p.chips
    · rw [if_pos hv]
      exact handleConfirmBet_total s playerId betAmount hnd
    · rw [if_neg hv]

theorem submitBet_inv (s : GameState) (playerId : String) (betAmount : Int) (h : Inv s) :
    Inv (submitBet s playerId betAmount) := by
  unfold submitBet BettingModal.handleConfirm
  cases hfind : s.players.find? (fun q => q.id == playerId) with
  | none => exact h
  | some p =>
    dsimp only
    by_cases hv : BettingModal.minBet s.currentBet p.currentBet ≤ betAmount
        ∧ betAmount ≤ p.chips
    · rw [if_pos hv]
      exact handleConfirmBet_inv_of_valid s playerId betAmount h p hfind hv.1 hv.2
    · rw [if_neg hv]
      exact h

theorem confirmNextRound_total (s : GameState) :
    totalChipsInPlay (confirmNextRound s) = totalChipsInPlay s := by
  unfold totalChipsInPlay confirmNextRound
  dsimp only
  split_ifs with h
  · dsimp only
    rw [map_field_congr s.players
      (fun player => { player with currentBet := 0 }) Player.chips (fun p => rfl)]
  · rfl

theorem confirmNextRound_inv (s : GameState) (h : Inv s) : Inv (confirmNextRound s) := by
  obtain ⟨hpot, hnd, hpl⟩ := h
  unfold confirmNextRound
  dsimp only
  split_ifs with hif
  · refine ⟨hpot, ?_, ?_⟩
    · dsimp only
      rw [map_field_congr s.players
        (fun player => { player with currentBet := 0 }) Player.id (fun p => rfl)]
      exact hnd
    · intro q' hq'
      simp only [List.mem_map] at hq'
      obtain ⟨q, hq, rfl⟩ := hq'
      exact ⟨(hpl q hq).1, by dsimp only; omega⟩
  · exact ⟨hpot, hnd, hpl⟩

theorem handlePotDistribution_total (s : GameState) (winners : List String)
    (h : Inv s) (hne : winners ≠ []) (hndw : winners.Nodup)
    (hmem : ∀ w ∈ winners, w ∈ s.players.map Player.id) :
    totalChipsInPlay
        (handlePotDistribution s (PotDistribution.calculateDistribution s.pot winners))
      = totalChipsInPlay s := by
  obtain ⟨hpot, hnd, _⟩ := h
  set d := PotDistribution.calculateDistribution s.pot winners with hd
  unfold totalChipsInPlay handlePotDistribution
  dsimp only
  have hmap : (s.players.map (fun player =>
      { player with
        chips := player.chips + ((d.lookup player.id).getD 0),
        status := if 0 < player.chips + ((d.lookup player.id).getD 0)
          then PlayerStatus.active else .folded,
        currentBet := 0 })).map Player.chips
      = s.players.map (fun q => q.chips + ((d.lookup q.id).getD 0)) := by
    rw [List.map_map]
    exact List.map_congr_left (fun q _ => rfl)
  rw [hmap]
  have hsplit : ∀ l : List Player,
      (l.map (fun q => q.chips + ((d.lookup q.id).getD 0))).sum
        = (l.map Player.chips).sum + (l.map (fun q => (d.lookup q.id).getD 0)).sum := by
    intro l
    induction l with
    | nil => rfl
    | cons a t ih =>
      simp only [List.map_cons, List.sum_cons]
      rw [ih]
      ring
  rw [hsplit s.players]
  have hlist : (s.players.map (fun q => (d.lookup q.id).getD 0)).sum
      = ((s.players.map Player.id).map (fun x => (d.lookup x).getD 0)).sum := by
    rw [List.map_map]
    rfl
  rw [hlist]
  have hkeys : d.map Prod.fst = winners := by
    rw [hd]
    exact PotDistribution.calculateDistribution_keys s.pot winners
  have hlook : ((s.players.map Player.id).map (fun x => (d.lookup x).getD 0)).sum
      = (d.map Prod.snd).sum := by
    apply PotDistribution.sum_map_lookup d (s.players.map Player.id) hnd
    · rw [hkeys]; exact hndw
    · rw [hkeys]; exact hmem
  rw [hlook, hd, PotDistribution.calculateDistribution_sum s.pot winners hpot hne]
  ring

theorem handlePotDistribution_inv (s : GameState) (winners : List String)
    (h : Inv s) :
    Inv (handlePotDistribution s (PotDistribution.calculateDistribution s.pot winners)) := by
  obtain ⟨hpot, hnd, hpl⟩ := h
  set d := PotDistribution.calculateDistribution s.pot winners with hd
  have hvals : ∀ kv ∈ d, 0 ≤ kv.2 :=
    PotDistribution.calculateDistribution_values_nonneg s.pot winners hpot
  have hlookup : ∀ x, 0 ≤ (d.lookup x).getD 0 :=
    fun x => PotDistribution.lookup_getD_nonneg d hvals x
  refine ⟨by simp [handlePotDistribution], ?_, ?_⟩
  · have : (handlePotDistribution s d).players.map Player.id = s.players.map Player.id := by
      unfold handlePotDistribution
      dsimp only
      exact map_field_congr s.players _ Player.id (fun q => rfl)
    rw [this]
    exact hnd
  · intro q' hq'
    have hcb : (handlePotDistribution s d).currentBet = 0 := rfl
    rw [hcb]
    simp only [handlePotDistribution, List.mem_map] at hq'
    obtain ⟨q, hq, rfl⟩ := hq'
    refine ⟨?_, by dsimp only; omega⟩
    dsimp only
    have := (hpl q hq).1
    have := hlookup q.id
    omega

theorem step_total {s t : GameState} (h : Inv s) (hst : Step s t) :
    totalChipsInPlay t = totalChipsInPlay s := by
  obtain ⟨hpot, hnd, hpl⟩ := h
  cases hst with
  | fold playerId => exact confirmFold_total s playerId
  | call playerId => exact handleCall_total s playerId hnd
  | bet playerId betAmount => exact submitBet_total s playerId betAmount hnd
  | advanceRound => exact confirmNextRound_total s
  | distributePot winners hne hndw hmem =>
    exact handlePotDistribution_total s winners ⟨hpot, hnd, hpl⟩ hne hndw hmem

theorem step_inv {s t : GameState} (h : Inv s) (hst : Step s t) : Inv t := by
  cases hst with
  | fold playerId => exact confirmFold_inv s playerId h
  | call playerId => exact handleCall_inv s playerId h
  | bet playerId betAmount => exact submitBet_inv s playerId betAmount h
  | advanceRound => exact confirmNextRound_inv s h
  | distributePot winners hne hndw hmem => exact handlePotDistribution_inv s winners h

theorem reach_inv_total {s0 s : GameState} (h : Inv s0)
    (hr : Relation.ReflTransGen Step s0 s) :
    Inv s ∧ totalChipsInPlay s = totalChipsInPlay s0 := by
  induction hr with
  | refl => exact ⟨h, rfl⟩
  | tail hab hbc ih =>
    exact ⟨step_inv ih.1 hbc, by rw [step_total ih.1 hbc, ih.2]⟩

theorem initState_inv (initialPlayers : List (String × String)) (startingChips : Int)
    (h0 : 0 ≤ startingChips) (hnd : (initialPlayers.map Prod.fst).Nodup) :
    Inv (initState initialPlayers startingChips) := by
  refine ⟨le_refl 0, ?_, ?_⟩
  · unfold initState
    dsimp only
    rw [List.map_map]
    exact hnd
  · intro p hp
    simp only [initState, List.mem_map] at hp
    obtain ⟨q, _, rfl⟩ := hp
    exact ⟨h0, le_refl 0⟩

/-- Claim C1.  Chip conservation: from any fresh game (distinct player
ids, non-negative starting stacks), every sequence of Fold, Call/Check,
Bet/Raise, AdvanceRound and DistributePot steps — the distribution map
being the one the settlement arithmetic produces — leaves the sum of all
players' chips plus the pot unchanged. -/
theorem chip_conservation (initialPlayers : List (String × String)) (startingChips : Int)
    (h0 : 0 ≤ startingChips) (hnd : (initialPlayers.map Prod.fst).Nodup)
    (s : GameState)
    (hreach : Relation.ReflTransGen Step (initState initialPlayers startingChips) s) :
    totalChipsInPlay s = totalChipsInPlay (initState initialPlayers startingChips) :=
  (reach_inv_total (initState_inv initialPlayers startingChips h0 hnd) hreach).2

/-- Witness for C1: in a two-player game with 100 chips each, a bet of
10 by player a keeps the total at 200. -/
theorem chip_conservation_witness :
    totalChipsInPlay (submitBet (initState [("a", "A"), ("b", "B")] 100) "a" 10)
      = totalChipsInPlay (initState [("a", "A"), ("b", "B")] 100) :=
  chip_conservation [("a", "A"), ("b", "B")] 100 (by decide) (by decide)
    (submitBet (initState [("a", "A"), ("b", "B")] 100) "a" 10)
    (Relation.ReflTransGen.single
      (Step.bet (initState [("a", "A"), ("b", "B")] 100) "a" 10))

/-- Claim C8.  Minimum-raise enforcement: a bet submitted through the
betting modal is rejected, with the game state unchanged, exactly when
betAmount < max(currentBet - playerCurrentBet + 1, 1) or
betAmount > playerChips; an amount within the bounds is forwarded to
handleConfirmBet. -/
theorem minimum_raise_enforcement (s : GameState) (playerId : String) (betAmount : Int)
    (p : Player) (hfind : s.players.find? (fun q => q.id == playerId) = some p) :
    ((betAmount < max (s.currentBet - p.currentBet + 1) 1 ∨ p.chips < betAmount) →
      BettingModal.handleConfirm s.currentBet p.currentBet p.chips betAmount = none ∧
        submitBet s playerId betAmount = s) ∧
    ((max (s.currentBet - p.currentBet + 1) 1 ≤ betAmount ∧ betAmount ≤ p.chips) →
      BettingModal.handleConfirm s.currentBet p.currentBet p.chips betAmount
          = some betAmount ∧
        submitBet s playerId betAmount = handleConfirmBet s playerId betAmount) := by
  constructor
  · intro h
    have hrej : ¬ (BettingModal.minBet s.currentBet p.currentBet ≤ betAmount
        ∧ betAmount ≤ p.chips) := by
      unfold BettingModal.minBet
      omega
    constructor
    · unfold BettingModal.handleConfirm
      rw [if_neg hrej]
    · unfold submitBet BettingModal.handleConfirm
      rw [hfind]
      dsimp only
      rw [if_neg hrej]
  · intro h
    have hacc : BettingModal.minBet s.currentBet p.currentBet ≤ betAmount
        ∧ betAmount ≤ p.chips := by
      unfold BettingModal.minBet
      omega
    constructor
    · unfold BettingModal.handleConfirm
      rw [if_pos hacc]
    · unfold submitBet BettingModal.handleConfirm
      rw [hfind]
      dsimp only
      rw [if_pos hacc]

/-- Witness for C8: with 100 chips and table bet 0, a bet of 0 is
rejected without touching the state and a bet of 10 goes through. -/
theorem minimum_raise_enforcement_witness :
    (submitBet (initState [("a", "A")] 100) "a" 0 = initState [("a", "A")] 100) ∧
      submitBet (initState [("a", "A")] 100) "a" 10
        = handleConfirmBet (initState [("a", "A")] 100) "a" 10 :=
  ⟨((minimum_raise_enforcement (initState [("a", "A")] 100) "a" 0
      { id := "a", name := "A", chips := 100, status := .active, currentBet := 0 }
      (by decide)).1 (by decide)).2,
   ((minimum_raise_enforcement (initState [("a", "A")] 100) "a" 10
      { id := "a", name := "A", chips := 100, status := .active, currentBet := 0 }
      (by decide)).2 (by decide)).2⟩

/-- Claim C9.  New-hand gating: with a positive pot, the end-hand flow
leaves the whole game state unchanged and routes the user into pot
distribution; the new-hand reset (hand counter up, pre-flop, players
with chips active, bets cleared) runs only when the pot is 0. -/
theorem new_hand_gating (s : GameState) :
    (0 < s.pot → handleEndHand s = .toDistribution s) ∧
    (s.pot = 0 →
      handleEndHand s = .newHand (handleNewHand s) ∧
      (handleNewHand s).currentHand = s.currentHand + 1 ∧
      (handleNewHand s).currentRound = .preFlop ∧
      (handleNewHand s).pot = 0 ∧
      ∀ p ∈ s.players,
        ({ p with
            status := if 0 < p.chips then PlayerStatus.active else .folded,
            currentBet := 0 } : Player) ∈ (handleNewHand s).players) := by
  constructor
  · intro h
    unfold handleEndHand
    rw [if_pos h]
  · intro h
    refine ⟨?_, rfl, rfl, rfl, ?_⟩
    · unfold handleEndHand
      rw [if_neg (by omega)]
    · intro p hp
      unfold handleNewHand
      dsimp only
      exact List.mem_map_of_mem _ hp

/-- Witness for C9: a state with pot 30 is routed to distribution
unchanged; the same state with pot 0 starts hand 2. -/
theorem new_hand_gating_witness :
    handleEndHand { players := [{ id := "a", name := "A", chips := 70, status := .active, currentBet := 30 }], pot := 30, currentBet := 30, currentHand := 1, currentRound := .river }
      = .toDistribution { players := [{ id := "a", name := "A", chips := 70, status := .active, currentBet := 30 }], pot := 30, currentBet := 30, currentHand := 1, currentRound := .river } ∧
    (handleNewHand { players := [{ id := "a", name := "A", chips := 70, status := .active, currentBet := 0 }], pot := 0, currentBet := 0, currentHand := 1, currentRound := .river }).currentHand = 2 :=
  ⟨(new_hand_gating _).1 (by decide),
   ((new_hand_gating { players := [{ id := "a", name := "A", chips := 70, status := .active, currentBet := 0 }], pot := 0, currentBet := 0, currentHand := 1, currentRound := .river }).2
      (by decide)).2.1⟩

end GameInterface

namespace TurnManaged

theorem find?_id_spec_turn {l : List Player} {pid : String} {p : Player}
    (hfind : l.find? (fun q => q.id == pid) = some p) : p ∈ l ∧ p.id = pid := by
  refine ⟨List.mem_of_find?_eq_some hfind, ?_⟩
  have := List.find?_some hfind
  simpa using this

theorem eq_of_mem_of_id_eq_turn (l : List Player) (hnd : (l.map Player.id).Nodup) :
    ∀ p ∈ l, ∀ q ∈ l, p.id = q.id → p = q := by
  induction l with
  | nil => simp
  | cons a t ih =>
    simp only [List.map_cons, List.nodup_cons] at hnd
    obtain ⟨ha, hnd⟩ := hnd
    intro p hp q hq hpq
    rcases List.mem_cons.mp hp with hpa | hpt
    · rcases List.mem_cons.mp hq with hqa | hqt
      · rw [hpa, hqa]
      · exfalso
        apply ha
        rw [← hpa, hpq]
        exact List.mem_map_of_mem Player.id hqt
    · rcases List.mem_cons.mp hq with hqa | hqt
      · exfalso
        apply ha
        rw [← hqa, ← hpq]
        exact List.mem_map_of_mem Player.id hpt
      · exact ih hnd p hpt q hqt hpq

theorem setAdd_mem_of_mem (acted : List String) (x y : String) (h : x ∈ acted) :
    x ∈ setAdd acted y := by
  unfold setAdd
  split_ifs with hy
  · exact h
  · exact List.mem_append_left _ h

theorem setAdd_mem_self (acted : List String) (x : String) : x ∈ setAdd acted x := by
  unfold setAdd
  split_ifs with hx
  · exact hx
  · exact List.mem_append_right _ (List.mem_singleton.mpr rfl)

theorem find?_map_id_preserving (l : List Player) (pid : String) (f : Player → Player)
    (hf : ∀ q, (f q).id = q.id) :
    (l.map f).find? (fun q => q.id == pid)
      = Option.map f (l.find? (fun q => q.id == pid)) := by
  have hpred : ((fun q => q.id == pid) ∘ f) = (fun q : Player => q.id == pid) := by
    funext q
    simp [Function.comp, hf q]
  rw [List.find?_map, hpred]

/-- Claim C10.  Implicit: handlePotDistribution sets every player's
status from scratch — active exactly when the prior chips plus the share
are positive, folded otherwise, regardless of the previous status (a
folded or all-in player holding chips comes back active) — and resets
currentBet and totalCommitted to 0; pot and table bet drop to 0. -/
theorem pot_distribution_revives (s : GameState) (distribution : List (String × Int))
    (p : Player) (hp : p ∈ s.players) :
    ({ p with
        chips := p.chips + ((distribution.lookup p.id).getD 0),
        status := if 0 < p.chips + ((distribution.lookup p.id).getD 0)
          then PlayerStatus.active else .folded,
        currentBet := 0,
        totalCommitted := 0 } : Player)
        ∈ (handlePotDistribution s distribution).players ∧
      (handlePotDistribution s distribution).pot = 0 ∧
      (handlePotDistribution s distribution).currentBet = 0 := by
  refine ⟨?_, rfl, rfl⟩
  unfold handlePotDistribution
  dsimp only
  exact List.mem_map_of_mem _ hp

/-- Witness for C10: a folded player with 50 chips and no share is set
back to active by the distribution itself. -/
theorem pot_distribution_revives_witness :
    ({ id := "a", name := "A", chips := 50, status := PlayerStatus.active,
        currentBet := 0, totalCommitted := 0 } : Player)
      ∈ (handlePotDistribution
          { players := [{ id := "a", name := "A", chips := 50, status := .folded, currentBet := 0, totalCommitted := 5 }],
            pot := 0, currentBet := 0, currentHand := 1, currentRound := .river,
            currentPlayerIndex := 0, playersWhoHaveActed := [] }
          []).players :=
  (pot_distribution_revives
      { players := [{ id := "a", name := "A", chips := 50, status := .folded, currentBet := 0, totalCommitted := 5 }],
        pot := 0, currentBet := 0, currentHand := 1, currentRound := .river,
        currentPlayerIndex := 0, playersWhoHaveActed := [] }
      []
      { id := "a", name := "A", chips := 50, status := .folded, currentBet := 0, totalCommitted := 5 }
      (by decide)).1

/-- Claim C3.  Call/Check semantics: for a player p with
p.currentBet ≤ table currentBet and status active, Call/Check transfers
exactly min(max(0, currentBet - p.currentBet), p.chips) from p's chips
into the pot (0 is a free check; a short stack pays only its remaining
chips), increments p's currentBet and totalCommitted by that amount, and
leaves p all-in exactly when the resulting chips are 0. -/
theorem call_check_semantics (s : GameState) (playerId : String) (p : Player)
    (hfind : s.players.find? (fun q => q.id == playerId) = some p)
    (hstatus : p.status = .active)
    (hle : p.currentBet ≤ s.currentBet) :
    (handleCall s playerId).pot
        = s.pot + min (max 0 (s.currentBet - p.currentBet)) p.chips ∧
    ∃ u : Player,
      (handleCall s playerId).players.find? (fun q => q.id == playerId) = some u ∧
      u.chips = p.chips - min (max 0 (s.currentBet - p.currentBet)) p.chips ∧
      u.currentBet = p.currentBet + min (max 0 (s.currentBet - p.currentBet)) p.chips ∧
      u.totalCommitted
          = p.totalCommitted + min (max 0 (s.currentBet - p.currentBet)) p.chips ∧
      (u.status = .allIn ↔ u.chips = 0) := by
  have hmax : max 0 (s.currentBet - p.currentBet) = s.currentBet - p.currentBet := by omega
  rw [hmax]
  obtain ⟨hmem, hpid⟩ := find?_id_spec_turn hfind
  unfold handleCall
  rw [hfind]
  dsimp only
  set c := min (s.currentBet - p.currentBet) p.chips with hc
  constructor
  · rfl
  · have hfmap : (executeCall s playerId c).players.find? (fun q => q.id == playerId)
        = Option.map (fun player =>
            if player.id == playerId then
              { player with
                chips := player.chips - c,
                currentBet := player.currentBet + c,
                totalCommitted := player.totalCommitted + c,
                status := if player.chips - c = 0 then PlayerStatus.allIn
                  else player.status }
            else player)
            (s.players.find? (fun q => q.id == playerId)) := by
      apply find?_map_id_preserving
      intro q
      by_cases hb : q.id = playerId <;> simp [hb]
    refine ⟨{ p with
        chips := p.chips - c,
        currentBet := p.currentBet + c,
        totalCommitted := p.totalCommitted + c,
        status := if p.chips - c = 0 then PlayerStatus.allIn else p.status },
      ?_, rfl, rfl, rfl, ?_⟩
    · rw [hfmap, hfind, Option.map_some']
      rw [if_pos (by rw [hpid]; exact beq_self_eq_true playerId)]
    · dsimp only
      constructor
      · intro hall
        by_cases hz : p.chips - c = 0
        · exact hz
        · rw [if_neg hz, hstatus] at hall
          cases hall
      · intro hz
        rw [if_pos hz]

/-- Witness for C3, spec Scenario B: a player with 150 chips facing a
call amount of 300 transfers only 150, ends with 0 chips and becomes
all-in. -/
theorem call_check_semantics_witness :
    (handleCall
        { players := [{ id := "a", name := "A", chips := 150, status := .active, currentBet := 0, totalCommitted := 0 }],
          pot := 300, currentBet := 300, currentHand := 1, currentRound := .preFlop,
          currentPlayerIndex := 0, playersWhoHaveActed := [] }
        "a").pot = 450 := by
  have h := (call_check_semantics
      { players := [{ id := "a", name := "A", chips := 150, status := .active, currentBet := 0, totalCommitted := 0 }],
        pot := 300, currentBet := 300, currentHand := 1, currentRound := .preFlop,
        currentPlayerIndex := 0, playersWhoHaveActed := [] }
      "a"
      { id := "a", name := "A", chips := 150, status := .active, currentBet := 0, totalCommitted := 0 }
      (by decide) (by decide) (by decide)).1
  simpa using h

theorem acted_all_iff (s : GameState) :
    ((s.players.filter (fun p => p.status == .active)).all
        (fun player => s.playersWhoHaveActed.contains player.id) = true)
      ↔ (∀ p ∈ s.players, p.status = .active → p.id ∈ s.playersWhoHaveActed) := by
  rw [List.all_eq_true]
  constructor
  · intro h p hp hact
    have := h p (List.mem_filter.mpr ⟨hp, by rw [hact]; rfl⟩)
    simpa [List.contains] using this
  · intro h p hp
    obtain ⟨hmem, hact⟩ := List.mem_filter.mp hp
    have := h p hmem (by simpa using hact)
    simpa [List.contains] using this

theorem active_bets_all_iff (s : GameState) :
    ((s.players.filter (fun p => p.status == .active)).all
        (fun player => player.currentBet == s.currentBet) = true)
      ↔ (∀ p ∈ s.players, p.status = .active → p.currentBet = s.currentBet) := by
  rw [List.all_eq_true]
  constructor
  · intro h p hp hact
    have := h p (List.mem_filter.mpr ⟨hp, by rw [hact]; rfl⟩)
    simpa using this
  · intro h p hp
    obtain ⟨hmem, hact⟩ := List.mem_filter.mp hp
    have := h p hmem (by simpa using hact)
    simpa using this

theorem allin_bets_all_iff (s : GameState) :
    ((s.players.filter (fun p => p.status == .allIn)).all
        (fun player => player.currentBet == s.currentBet || player.chips == 0) = true)
      ↔ (∀ p ∈ s.players, p.status = .allIn →
          p.currentBet = s.currentBet ∨ p.chips = 0) := by
  rw [List.all_eq_true]
  constructor
  · intro h p hp hact
    have := h p (List.mem_filter.mpr ⟨hp, by rw [hact]; rfl⟩)
    simpa using this
  · intro h p hp
    obtain ⟨hmem, hact⟩ := List.mem_filter.mp hp
    have := h p hmem (by simpa using hact)
    simpa using this

theorem isBettingRoundComplete_iff (s : GameState) :
    isBettingRoundComplete s = true ↔ RoundCompleteSpec s := by
  unfold isBettingRoundComplete RoundCompleteSpec
  dsimp only
  split_ifs with h1 h2 h3
  · simp only [true_iff]
    exact Or.inl h1
  · simp only [false_iff]
    rw [Bool.not_eq_true'] at h2
    intro hspec
    rcases hspec with hl | ⟨hacted, _⟩
    · exact h1 hl
    · rw [← acted_all_iff s] at hacted
      rw [hacted] at h2
      cases h2
  · simp only [true_iff]
    rw [Bool.not_eq_true', Bool.not_eq_false] at h2
    exact Or.inr ⟨(acted_all_iff s).mp h2, Or.inl h3⟩
  · rw [Bool.not_eq_true', Bool.not_eq_false] at h2
    rw [Bool.and_eq_true, active_bets_all_iff, allin_bets_all_iff]
    constructor
    · rintro ⟨ha, hb⟩
      exact Or.inr ⟨(acted_all_iff s).mp h2, Or.inr ⟨ha, hb⟩⟩
    · rintro (hl | ⟨_, hcb | ⟨ha, hb⟩⟩)
      · exact absurd hl h1
      · exact absurd hcb h3
      · exact ⟨ha, hb⟩

/-- Claim C4.  Round-completion criterion: isBettingRoundComplete returns
true exactly when (a) zero or one player has status active, or (b) every
active player is in the acted-set and either the table currentBet is 0,
or every active player's currentBet equals the table currentBet and every
all-in player either matches the table currentBet or has 0 chips; in
particular clause (a) makes it true whenever all but one player has
folded, whatever the acted-set holds. -/
theorem round_completion_criterion (s : GameState) :
    isBettingRoundComplete s = true ↔ RoundCompleteSpec s :=
  isBettingRoundComplete_iff s

theorem nextActiveGo_eq (players : List Player) (startIndex : ℕ) :
    ∀ (fuel : ℕ) (j : ℕ), j < players.length →
      nextActiveGo players startIndex j fuel
        = (((List.range fuel).map (fun m => (j + m) % players.length)).find?
            (fun k => match players[k]? with
              | some p => p.status == .active
              | none => false)).getD startIndex := by
  intro fuel
  induction fuel with
  | zero => intro j _; rfl
  | succ fuel ih =>
    intro j hj
    have hlen : 0 < players.length := Nat.lt_of_le_of_lt (Nat.zero_le j) hj
    obtain ⟨pj, hp⟩ : ∃ x, players[j]? = some x := ⟨players[j], List.getElem?_eq_getElem hj⟩
    have hhead : (j + 0) % players.length = j := by
      rw [Nat.add_zero, Nat.mod_eq_of_lt hj]
    show (match players[j]? with
      | some player =>
        if player.status == PlayerStatus.active then j
        else nextActiveGo players startIndex ((j + 1) % players.length) fuel
      | none => nextActiveGo players startIndex ((j + 1) % players.length) fuel) = _
    rw [List.range_succ_eq_map, List.map_cons, List.map_map, List.find?_cons]
    rw [hhead]
    simp only [hp]
    by_cases hact : (pj.status == PlayerStatus.active) = true
    · rw [hact]
      simp
    · have hfalse : (pj.status == PlayerStatus.active) = false := by
        revert hact
        cases pj.status == PlayerStatus.active <;> simp
      rw [hfalse]
      rw [if_neg Bool.false_ne_true]
      dsimp only
      have htail : (List.range fuel).map ((fun m => (j + m) % players.length) ∘ Nat.succ)
          = (List.range fuel).map
              (fun m => ((j + 1) % players.length + m) % players.length) := by
        apply List.map_congr_left
        intro m _
        show (j + (m + 1)) % players.length
            = ((j + 1) % players.length + m) % players.length
        rw [Nat.mod_add_mod]
        congr 1
        omega
      rw [htail]
      exact ih ((j + 1) % players.length) (Nat.mod_lt _ hlen)

/-- Counterexample for C6: in a roster with no active player,
getNextActivePlayerIndex returns 0, not the fromIndex it was given (the
claim predicts 1 here). -/
theorem next_active_fallback_counterexample :
    (rosterAllFolded.all (fun p => !(p.status == PlayerStatus.active)) = true) ∧
    getNextActivePlayerIndex rosterAllFolded 1 = 0 ∧
    getNextActivePlayerIndex rosterAllFolded 1 ≠ 1 := by decide

/-- Claim C6, amended.  Next-active-player selection:
getNextActivePlayerIndex scans circularly forward from fromIndex + 1 and
returns the index of the first player with status active; when no player
is active it returns 0 (not fromIndex — the in-loop fromIndex fallback is
unreachable, the no-active case exits early with 0). -/
theorem next_active_player_characterization (players : List Player) (fromIndex : ℕ) :
    getNextActivePlayerIndex players fromIndex
      = (nextActiveSpec players fromIndex).getD 0 := by
  unfold getNextActivePlayerIndex nextActiveSpec
  dsimp only
  by_cases hempty : (players.filter (fun p => p.status == .active)).length = 0
  · rw [if_pos hempty]
    have hnone : (((List.range players.length).map
          (fun m => (fromIndex + 1 + m) % players.length)).find?
          (fun j => match players[j]? with
            | some p => p.status == .active
            | none => false)) = none := by
      rw [List.find?_eq_none]
      intro j _
      cases hpj : players[j]? with
      | none => simp
      | some p =>
        have hpmem : p ∈ players := List.getElem?_mem hpj
        intro hT
        have hTp : (p.status == PlayerStatus.active) = true := hT
        have hpf : p ∈ players.filter (fun p => p.status == .active) :=
          List.mem_filter.mpr ⟨hpmem, hTp⟩
        have := List.length_pos.mpr (List.ne_nil_of_mem hpf)
        omega
    rw [hnone]
    rfl
  · rw [if_neg hempty]
    have hfne : players.filter (fun p => p.status == .active) ≠ [] := by
      intro h0
      rw [h0] at hempty
      exact hempty rfl
    obtain ⟨pa, hpa⟩ := List.exists_mem_of_ne_nil _ hfne
    obtain ⟨hpmem, hpact⟩ := List.mem_filter.mp hpa
    have hlen : 0 < players.length := List.length_pos.mpr (List.ne_nil_of_mem hpmem)
    obtain ⟨k0, hk0lt, hk0⟩ := List.mem_iff_getElem.mp hpmem
    rw [nextActiveGo_eq players fromIndex players.length
      ((fromIndex + 1) % players.length) (Nat.mod_lt _ hlen)]
    have hlists : (List.range players.length).map
          (fun m => ((fromIndex + 1) % players.length + m) % players.length)
        = (List.range players.length).map
            (fun m => (fromIndex + 1 + m) % players.length) := by
      apply List.map_congr_left
      intro m _
      exact Nat.mod_add_mod (fromIndex + 1) players.length m
    rw [hlists]
    have hm0 : (fromIndex + 1
          + (k0 + players.length - (fromIndex + 1) % players.length) % players.length)
          % players.length = k0 := by
      have ha : (fromIndex + 1) % players.length < players.length := Nat.mod_lt _ hlen
      rw [← Nat.mod_add_mod (fromIndex + 1) players.length]
      rw [Nat.add_mod_mod]
      have he : (fromIndex + 1) % players.length
          + (k0 + players.length - (fromIndex + 1) % players.length)
          = k0 + players.length := by omega
      rw [he, Nat.add_mod_right, Nat.mod_eq_of_lt hk0lt]
    have hsome : (((List.range players.length).map
          (fun m => (fromIndex + 1 + m) % players.length)).find?
          (fun j => match players[j]? with
            | some p => p.status == .active
            | none => false)).isSome := by
      rw [List.find?_isSome]
      refine ⟨k0, List.mem_map.mpr
        ⟨(k0 + players.length - (fromIndex + 1) % players.length) % players.length,
          List.mem_range.mpr (Nat.mod_lt _ hlen), hm0⟩, ?_⟩
      have hk0some : players[k0]? = some pa := by
        rw [List.getElem?_eq_getElem hk0lt, hk0]
      rw [show (match players[k0]? with
          | some p => p.status == PlayerStatus.active
          | none => false) = (pa.status == PlayerStatus.active) by rw [hk0some]]
      exact hpact
    obtain ⟨r, hr⟩ := Option.isSome_iff_exists.mp hsome
    rw [hr]
    rfl

/-- Counterexample for C5: in raiseState player b raises to 40 (table
bet was 10, already called and acted by a); the table bet rises, yet a
stays marked as acted — the acted-set is not cleared. -/
theorem raise_reopens_counterexample :
    raiseState.currentBet = 10 ∧
    raiseState.currentBet < (handleConfirmBet raiseState "b" 30).currentBet ∧
    (handleConfirmBet raiseState "b" 30).currentBet = 40 ∧
    "a" ∈ raiseState.playersWhoHaveActed ∧
    "a" ∈ (handleConfirmBet raiseState "b" 30).playersWhoHaveActed := by decide

/-- Claim C5, amended.  Raise updates the table bet but does not re-open
the action: when a Bet/Raise pushes the raiser's new currentBet above the
table currentBet, the table currentBet is raised to match, but no player
is un-marked as acted — the acted-set is only extended with the raiser
(the spec's §9 records this as a known gap). -/
theorem raise_keeps_acted_set (s : GameState) (playerId : String) (betAmount : Int)
    (p : Player)
    (hfind : s.players.find? (fun q => q.id == playerId) = some p)
    (hraise : s.currentBet < p.currentBet + min betAmount p.chips) :
    (handleConfirmBet s playerId betAmount).currentBet
        = p.currentBet + min betAmount p.chips ∧
    (handleConfirmBet s playerId betAmount).playersWhoHaveActed
        = setAdd s.playersWhoHaveActed playerId := by
  unfold handleConfirmBet
  rw [hfind]
  dsimp only
  refine ⟨?_, rfl⟩
  rw [if_pos hraise]

/-- Witness for C5 (amended) at raiseState: b raising by 30 sets the
table bet to 40 and appends b to the acted-set, leaving a in it. -/
theorem raise_keeps_acted_set_witness :
    (handleConfirmBet raiseState "b" 30).currentBet = 40 ∧
    (handleConfirmBet raiseState "b" 30).playersWhoHaveActed = ["a", "b"] := by
  have h := raise_keeps_acted_set raiseState "b" 30
    { id := "b", name := "B", chips := 90, status := .active, currentBet := 10,
      totalCommitted := 10 }
    (by decide) (by decide)
  refine ⟨?_, ?_⟩
  · rw [h.1]
    decide
  · rw [h.2]
    decide

theorem length_filter_active_map_le (l : List Player) (f : Player → Player)
    (hf : ∀ q, (f q).status = PlayerStatus.active → q.status = .active) :
    ((l.map f).filter (fun p => p.status == .active)).length
      ≤ (l.filter (fun p => p.status == .active)).length := by
  induction l with
  | nil => simp
  | cons a t ih =>
    simp only [List.map_cons, List.filter_cons]
    by_cases hfa : ((f a).status == PlayerStatus.active) = true
    · have haa : (a.status == PlayerStatus.active) = true := by
        rw [beq_iff_eq] at hfa ⊢
        exact hf a hfa
      rw [if_pos hfa, if_pos haa]
      simp only [List.length_cons]
      omega
    · rw [if_neg hfa]
      split_ifs with haa
      · simp only [List.length_cons]
        omega
      · exact ih

theorem spec_preserved_fold (s : GameState) (playerId : String)
    (h : RoundCompleteSpec s) : RoundCompleteSpec (confirmFold s playerId) := by
  have hpl : (confirmFold s playerId).players
      = s.players.map (fun player =>
          if player.id == playerId then { player with status := PlayerStatus.folded }
          else player) := rfl
  have hcb : (confirmFold s playerId).currentBet = s.currentBet := rfl
  have hacted : (confirmFold s playerId).playersWhoHaveActed
      = setAdd s.playersWhoHaveActed playerId := rfl
  rcases h with h1 | ⟨hact, hrest⟩
  · left
    refine le_trans (length_filter_active_map_le s.players _ ?_) h1
    intro q hq
    by_cases hb : q.id = playerId
    · simp [hb] at hq
    · simpa [hb] using hq
  · right
    constructor
    · intro q' hq' hq'act
      rw [hpl] at hq'
      obtain ⟨q, hq, rfl⟩ := List.mem_map.mp hq'
      rw [hacted]
      by_cases hb : q.id = playerId
      · simp [hb] at hq'act
      · have hfq : (if q.id == playerId
            then ({ q with status := PlayerStatus.folded } : Player) else q) = q := by
          simp [hb]
        rw [hfq] at hq'act ⊢
        exact setAdd_mem_of_mem _ _ _ (hact q hq hq'act)
    · rcases hrest with hcb0 | ⟨hA, hB⟩
      · left
        rw [hcb]
        exact hcb0
      · right
        constructor
        · intro q' hq' hq'act
          rw [hpl] at hq'
          obtain ⟨q, hq, rfl⟩ := List.mem_map.mp hq'
          rw [hcb]
          by_cases hb : q.id = playerId
          · simp [hb] at hq'act
          · have hfq : (if q.id == playerId
                then ({ q with status := PlayerStatus.folded } : Player) else q) = q := by
              simp [hb]
            rw [hfq] at hq'act ⊢
            exact hA q hq hq'act
        · intro q' hq' hq'all
          rw [hpl] at hq'
          obtain ⟨q, hq, rfl⟩ := List.mem_map.mp hq'
          rw [hcb]
          by_cases hb : q.id = playerId
          · simp [hb] at hq'all
          · have hfq : (if q.id == playerId
                then ({ q with status := PlayerStatus.folded } : Player) else q) = q := by
              simp [hb]
            rw [hfq] at hq'all ⊢
            exact hB q hq hq'all

theorem spec_preserved_call (s : GameState) (playerId : String)
    (hnd : (s.players.map Player.id).Nodup)
    (h : RoundCompleteSpec s) : RoundCompleteSpec (handleCall s playerId) := by
  unfold handleCall
  cases hfind : s.players.find? (fun q => q.id == playerId) with
  | none => exact h
  | some p =>
    obtain ⟨hpmem, hpid⟩ := find?_id_spec_turn hfind
    have hpl : (executeCall s playerId (min (s.currentBet - p.currentBet) p.chips)).players
        = s.players.map (fun player =>
            if player.id == playerId then
              { player with
                chips := player.chips - min (s.currentBet - p.currentBet) p.chips,
                currentBet := player.currentBet + min (s.currentBet - p.currentBet) p.chips,
                totalCommitted :=
                  player.totalCommitted + min (s.currentBet - p.currentBet) p.chips,
                status := if player.chips - min (s.currentBet - p.currentBet) p.chips = 0
                  then PlayerStatus.allIn else player.status }
            else player) := rfl
    have hcb : (executeCall s playerId
        (min (s.currentBet - p.currentBet) p.chips)).currentBet = s.currentBet := rfl
    have hacted : (executeCall s playerId
          (min (s.currentBet - p.currentBet) p.chips)).playersWhoHaveActed
        = setAdd s.playersWhoHaveActed playerId := rfl
    rcases h with h1 | ⟨hact, hrest⟩
    · left
      refine le_trans (length_filter_active_map_le s.players _ ?_) h1
      intro q hq
      by_cases hb : q.id = playerId
      · simp only [hb, beq_self_eq_true, if_true] at hq
        by_cases hz : q.chips - min (s.currentBet - p.currentBet) p.chips = 0
        · rw [if_pos hz] at hq
          cases hq
        · rw [if_neg hz] at hq
          exact hq
      · simpa [hb] using hq
    · right
      constructor
      · intro q' hq' hq'act
        rw [hpl] at hq'
        obtain ⟨q, hq, rfl⟩ := List.mem_map.mp hq'
        rw [hacted]
        by_cases hb : q.id = playerId
        · simp only [hb, beq_self_eq_true, if_true]
          exact setAdd_mem_self _ _
        · simp [hb] at hq'act ⊢
          exact setAdd_mem_of_mem _ _ _ (hact q hq hq'act)
      · rcases hrest with hcb0 | ⟨hA, hB⟩
        · left
          rw [hcb]
          exact hcb0
        · right
          constructor
          · intro q' hq' hq'act
            rw [hpl] at hq'
            obtain ⟨q, hq, rfl⟩ := List.mem_map.mp hq'
            rw [hcb]
            by_cases hb : q.id = playerId
            · have hqp : q = p := eq_of_mem_of_id_eq_turn s.players hnd q hq p hpmem
                (by rw [hb, hpid])
              subst hqp
              simp only [hb, beq_self_eq_true, if_true] at hq'act ⊢
              by_cases hz : q.chips - min (s.currentBet - q.currentBet) q.chips = 0
              · rw [if_pos hz] at hq'act
                cases hq'act
              · rw [if_neg hz] at hq'act
                have hbet := hA q hq hq'act
                omega
            · simp [hb] at hq'act ⊢
              exact hA q hq hq'act
          · intro q' hq' hq'all
            rw [hpl] at hq'
            obtain ⟨q, hq, rfl⟩ := List.mem_map.mp hq'
            rw [hcb]
            by_cases hb : q.id = playerId
            · have hqp : q = p := eq_of_mem_of_id_eq_turn s.players hnd q hq p hpmem
                (by rw [hb, hpid])
              subst hqp
              simp only [hb, beq_self_eq_true, if_true] at hq'all ⊢
              by_cases hz : q.chips - min (s.currentBet - q.currentBet) q.chips = 0
              · exact Or.inr hz
              · rw [if_neg hz] at hq'all
                have hdis := hB q hq hq'all
                omega
            · simp [hb] at hq'all ⊢
              exact hB q hq hq'all

/-- Counterexample for C7: checkedState is a complete round (table bet 0,
both active players acted); a subsequent bet of 10 by b makes
isBettingRoundComplete false again, so completion is not preserved by
Bet/Raise. -/
theorem round_complete_monotone_counterexample :
    isBettingRoundComplete checkedState = true ∧
    isBettingRoundComplete (handleConfirmBet checkedState "b" 10) = false := by decide

/-- Claim C7, amended.  Round-completion monotonicity holds for Fold and
Call/Check only: in a state with duplicate-free player ids, once
isBettingRoundComplete is true it stays true after every subsequent Fold
and Call/Check; a Bet/Raise that increases the table currentBet can make
it false again (the UI hides all action buttons once the round is
complete, so no such action is offered after completion). -/
theorem round_complete_monotone_fold_call (s : GameState) (playerId : String)
    (hnd : (s.players.map Player.id).Nodup)
    (hc : isBettingRoundComplete s = true) :
    isBettingRoundComplete (confirmFold s playerId) = true ∧
    isBettingRoundComplete (handleCall s playerId) = true := by
  have hspec := (isBettingRoundComplete_iff s).mp hc
  constructor
  · exact (isBettingRoundComplete_iff _).mpr (spec_preserved_fold s playerId hspec)
  · exact (isBettingRoundComplete_iff _).mpr (spec_preserved_call s playerId hnd hspec)

/-- Witness for C7 (amended) at checkedState: after a fold by a, and
after a check by a, the round stays complete. -/
theorem round_complete_monotone_fold_call_witness :
    isBettingRoundComplete (confirmFold checkedState "a") = true ∧
    isBettingRoundComplete (handleCall checkedState "a") = true :=
  round_complete_monotone_fold_call checkedState "a" (by decide) (by decide)

end TurnManaged

